import Mathlib

/-!
Verification development for the ui-canvas-framework registry and
validation pipeline.  The JavaScript sources (scripts/registry-manager.js,
scripts/css-token-validator.js, scripts/validate-architecture.js) are
shallowly embedded: file contents are strings, the JSON manifest is a
structured value (JSON serialisation is modelled as the identity on the
structured value), JavaScript objects are association lists whose keys are
kept unique by the insert operation, and every regular expression of the
source is reimplemented as an executable character-list scanner with the
same match semantics (leftmost match, greedy or lazy exactly as in the
source pattern, global scans restarting after each match).  JavaScript
whitespace is modelled as ASCII whitespace.
-/

namespace UICanvas

/-- Characters matched by the JavaScript regex class backslash-s
(ASCII fragment: space, tab, newline, carriage return, vertical tab,
form feed). -/
def isSpaceChar (c : Char) : Bool :=
  c = ' ' || c = '\t' || c = '\n' || c = '\r' || c = '\x0b' || c = '\x0c'

/-- Left brace character, written numerically. -/
def lbraceChar : Char := Char.ofNat 123

/-- Single quote character, written numerically. -/
def squoteChar : Char := Char.ofNat 39

/-- Backtick character, written numerically. -/
def btickChar : Char := Char.ofNat 96

/-- If `pat` is a prefix of `cs`, drop it and return the rest. -/
def chopLit (pat cs : List Char) : Option (List Char) :=
  if pat.isPrefixOf cs then some (cs.drop pat.length) else none

/-- Substring test on character lists (JavaScript `String.includes`). -/
def containsL (hay pat : List Char) : Bool :=
  match hay with
  | [] => pat.isEmpty
  | _ :: rest => pat.isPrefixOf hay || containsL rest pat

/-- JavaScript `String.includes`. -/
def strContains (hay pat : String) : Bool := containsL hay.toList pat.toList

/-- JavaScript `String.startsWith`. -/
def strStarts (s p : String) : Bool := p.toList.isPrefixOf s.toList

/-- JavaScript `String.endsWith`. -/
def strEnds (s p : String) : Bool := p.toList.isSuffixOf s.toList

/-- JavaScript `String.trim` (ASCII whitespace fragment). -/
def trimChars (cs : List Char) : List Char :=
  ((cs.dropWhile isSpaceChar).reverse.dropWhile isSpaceChar).reverse

/-- JavaScript `String.split(',')`: split at every comma, keeping empty
pieces (so the empty string yields one empty piece). -/
def splitComma (cs : List Char) : List (List Char) :=
  match cs with
  | [] => [[]]
  | c :: rest =>
    match splitComma rest with
    | [] => [[c]]
    | h :: t => if c = ',' then [] :: h :: t else (c :: h) :: t

/-- JavaScript `String.split('\n')`. -/
def splitNl (cs : List Char) : List (List Char) :=
  match cs with
  | [] => [[]]
  | c :: rest =>
    match splitNl rest with
    | [] => [[c]]
    | h :: t => if c = '\n' then [] :: h :: t else (c :: h) :: t

/-- Lines of a file, as strings (JavaScript `content.split('\n')`). -/
def splitLines (content : String) : List String :=
  (splitNl content.toList).map String.mk

/-- Number of matches of a literal pattern under a global regex scan:
matches are counted left to right, and the scan resumes after the end of
each match.  `skip` is the number of characters still covered by the
previous match (the regex `lastIndex`). -/
def countOccGo (pat : List Char) (skip : Nat) : List Char → Nat
  | [] => 0
  | c :: rest =>
    match skip with
    | k + 1 => countOccGo pat k rest
    | 0 =>
      if pat ≠ [] ∧ pat.isPrefixOf (c :: rest) then
        1 + countOccGo pat (pat.length - 1) rest
      else countOccGo pat 0 rest

/-- JavaScript `content.match(new RegExp(lit, 'g')).length` for an
escaped literal `lit`. -/
def countOcc (pat hay : List Char) : Nat := countOccGo pat 0 hay

/-- Run a position matcher at every suffix, left to right, returning the
first success (JavaScript non-global `String.match` leftmost semantics). -/
def firstSome {α : Type} (f : List Char → Option α) (cs : List Char) : Option α :=
  match cs with
  | [] => f []
  | _ :: rest =>
    match f cs with
    | some a => some a
    | none => firstSome f rest

/-- Run a boolean position matcher at every suffix (JavaScript
`RegExp.test`). -/
def existsAt (f : List Char → Bool) (cs : List Char) : Bool :=
  match cs with
  | [] => f []
  | _ :: rest => f cs || existsAt f rest

/-! ## Token validator (scripts/css-token-validator.js)

`CSSTokenValidator` keeps `this.tokens`, a `Map` from custom-property
names to `{value, usageCount, category}` records, and `this.violations`,
a list of findings.  The `Map` is embedded as an association list whose
keys are the token names; the token set extracted from `styles/main.css`
is a parameter of the functions below, exactly as `this.tokens` is state
shared by the methods. -/

/-- Value stored in `this.tokens` for one design token. -/
structure TokenData where
  value : String
  usageCount : Nat
  category : String
deriving DecidableEq

/-- One entry of `this.violations`.  JavaScript builds objects of varying
shape; fields absent from a given violation are defaulted (`file` and
`token` to the empty string, `details` to the empty list). -/
structure TokenViolation where
  vtype : String
  message : String
  severity : String
  file : String
  token : String
  details : List String
deriving DecidableEq

/-- Character class `[a-zA-Z0-9-]` used by the token regexes. -/
def isTokenChar (c : Char) : Bool := c.isAlpha || c.isDigit || c = '-'

/-- Global scan for `var\((--[a-zA-Z0-9-]+)/g`: at each occurrence of
`var(--` followed by at least one class character, the captured token
name is the maximal class-character run prefixed by `--`, and the scan
resumes after the match (`skip` plays the role of `lastIndex`). -/
def scanVarGo (skip : Nat) : List Char → List String
  | [] => []
  | c :: rest =>
    match skip with
    | k + 1 => scanVarGo k rest
    | 0 =>
      if "var(--".toList.isPrefixOf (c :: rest) then
        if (((c :: rest).drop 6).takeWhile isTokenChar).isEmpty then
          scanVarGo 0 rest
        else
          String.mk ('-' :: '-' :: ((c :: rest).drop 6).takeWhile isTokenChar) ::
            scanVarGo
              (6 + (((c :: rest).drop 6).takeWhile isTokenChar).length - 1) rest
      else scanVarGo 0 rest

/-- All matches of `var\((--[a-zA-Z0-9-]+)/g` in a file, in order. -/
def scanVarUsages (cs : List Char) : List String := scanVarGo 0 cs

/-- The usage-count pass of `checkTokenUsageInFile`: every token's
counter grows by the number of global matches of `var\(` followed by the
(escaped, hence literal) token name in the file content. -/
def bumpCounts (content : String) (tokens : List (String × TokenData)) :
    List (String × TokenData) :=
  tokens.map fun p =>
    (p.1, ⟨p.2.value,
           p.2.usageCount + countOcc ("var(" ++ p.1).toList content.toList,
           p.2.category⟩)

/-- The unknown-token pass of `checkTokenUsageInFile`: every parsed
`var(--name` usage whose name is not a key of `this.tokens` yields an
`unknown-token` error naming the file and the token. -/
def unknownTokenViols (tokens : List (String × TokenData))
    (file content : String) : List TokenViolation :=
  (scanVarUsages content.toList).filterMap fun nm =>
    if nm ∈ tokens.map Prod.fst then none
    else some ⟨"unknown-token", "Unknown token " ++ nm ++ " used",
               "error", file, nm, []⟩

/-- Model of `checkTokenUsageInFile`: updates the token counters, then reports
unknown `var(--name` references. -/
def checkTokenUsageInFile (tokens : List (String × TokenData))
    (file content : String) :
    List (String × TokenData) × List TokenViolation :=
  (bumpCounts content tokens, unknownTokenViols tokens file content)

/-- The per-file loop of `validateTokenUsage` over the CSS, HTML and JS
files found by the globs: each file's check runs against the counters
accumulated so far, and its violations are appended in order. -/
def tokenUsageGo (tokens : List (String × TokenData))
    (files : List (String × String)) :
    List (String × TokenData) × List TokenViolation :=
  match files with
  | [] => (tokens, [])
  | f :: rest =>
    let r := checkTokenUsageInFile tokens f.1 f.2
    let r2 := tokenUsageGo r.1 rest
    (r2.1, r.2 ++ r2.2)

/-- Model of `validateTokenUsage`: after scanning every file, tokens whose counter
is zero are gathered into a single `unused-tokens` warning listing their
names. -/
def validateTokenUsage (tokens : List (String × TokenData))
    (files : List (String × String)) :
    List (String × TokenData) × List TokenViolation :=
  let r := tokenUsageGo tokens files
  let unused := r.1.filter fun p => decide (p.2.usageCount = 0)
  (r.1,
   r.2 ++
     if 0 < unused.length then
       [⟨"unused-tokens", toString unused.length ++ " unused design tokens",
         "warning", "", "", unused.map Prod.fst⟩]
     else [])

/-- Modelled from the spec: the number of `var(--name)` references to
exactly the given token in the scanned files, that is, the number of
parsed `var(--` usages whose (maximal) token name equals it.  This is the
quantity the specification says the usage counter equals; it is compared
against the counter the source actually computes. -/
def exactRefCount (files : List (String × String)) (nm : String) : Nat :=
  (files.map fun f => (scanVarUsages f.2.toList).count nm).sum

/-- Total number of occurrences of `var(` followed by the token name
across the scanned files (what the source's counter actually adds up). -/
def totalOcc (files : List (String × String)) (n : String) : Nat :=
  (files.map fun f => countOcc ("var(" ++ n).toList f.2.toList).sum

/-! ## Hardcoded-value check (`checkHardcodedValues` / `checkHardcodedInFile`)

Each hardcoded pattern of the source is a regex tested per line; the
five tests below reproduce their match semantics. -/

/-- Character class `[0-9a-fA-F]`. -/
def isHexDigit (c : Char) : Bool :=
  c.isDigit || ('a' ≤ c && c ≤ 'f') || ('A' ≤ c && c ≤ 'F')

/-- JavaScript word character for the boundary assertion: `[A-Za-z0-9_]`. -/
def isWordChar (c : Char) : Bool := c.isAlpha || c.isDigit || c = '_'

/-- Position match for `#[0-9a-fA-F]\x7b3,6\x7d`: a hash sign followed by
at least three hex digits. -/
def hexAt (cs : List Char) : Bool :=
  match cs with
  | '#' :: r => 3 ≤ (r.takeWhile isHexDigit).length
  | _ => false

/-- Test of the hex-color pattern on a line. -/
def hexTest (s : String) : Bool := existsAt hexAt s.toList

/-- Scan for a word-boundary-delimited digits-then-unit occurrence
(regexes with backslash-b, digits, a literal unit, backslash-b): `prev`
is the character before the current position, used for the left boundary. -/
def unitScan (unit : List Char) (prev : Option Char) (cs : List Char) : Bool :=
  match cs with
  | [] => false
  | c :: r =>
    (c.isDigit &&
      (match prev with | none => true | some p => !isWordChar p) &&
      (unit.isPrefixOf ((c :: r).drop ((c :: r).takeWhile Char.isDigit).length) &&
        (match (((c :: r).drop ((c :: r).takeWhile Char.isDigit).length).drop
                  unit.length) with
         | [] => true
         | d :: _ => !isWordChar d)))
    || unitScan unit (some c) r

/-- Test of the raw-pixel pattern on a line. -/
def pxTest (s : String) : Bool := unitScan "px".toList none s.toList

/-- Test of the raw-rem pattern on a line. -/
def remTest (s : String) : Bool := unitScan "rem".toList none s.toList

/-- The `\d+,\s*\d+,\s*\d+` part after `rgba?(`. -/
def digitsCommaChain (r3 : List Char) : Bool :=
  if (r3.takeWhile Char.isDigit).isEmpty then false
  else
    match r3.drop (r3.takeWhile Char.isDigit).length with
    | ',' :: r4 =>
      if ((r4.dropWhile isSpaceChar).takeWhile Char.isDigit).isEmpty then false
      else
        match (r4.dropWhile isSpaceChar).drop
            ((r4.dropWhile isSpaceChar).takeWhile Char.isDigit).length with
        | ',' :: r5 =>
          !((r5.dropWhile isSpaceChar).takeWhile Char.isDigit).isEmpty
        | _ => false
    | _ => false

/-- Position match for `rgba?\(\d+,\s*\d+,\s*\d+`. -/
def rgbaAt (cs : List Char) : Bool :=
  match chopLit "rgb".toList cs with
  | none => false
  | some r1 =>
    match (match r1 with | 'a' :: t => t | t => t) with
    | '(' :: r3 => digitsCommaChain r3
    | _ => false

/-- Test of the raw-rgba pattern on a line. -/
def rgbaTest (s : String) : Bool := existsAt rgbaAt s.toList

/-- Position match for `font-family:\s*[^v]`: after the literal header, a
match exists exactly when at least one character follows and the first
following character is not `v` (if it is whitespace, the greedy
whitespace star backtracks and the class consumes the whitespace). -/
def fontAt (cs : List Char) : Bool :=
  match chopLit "font-family:".toList cs with
  | none => false
  | some r1 =>
    match r1 with
    | [] => false
    | c :: _ => c ≠ 'v'

/-- Test of the font-family pattern on a line. -/
def fontTest (s : String) : Bool := existsAt fontAt s.toList

/-- One entry of the `hardcodedPatterns` array. -/
structure HPattern where
  test : String → Bool
  ptype : String
  suggestion : String

/-- The `hardcodedPatterns` array of `checkHardcodedValues`. -/
def hardcodedPatterns : List HPattern :=
  [⟨hexTest, "color", "Use --color-* tokens"⟩,
   ⟨pxTest, "size", "Use --spacing-* or --size-* tokens"⟩,
   ⟨remTest, "size", "Use --spacing-* tokens"⟩,
   ⟨rgbaTest, "color", "Use --color-* tokens"⟩,
   ⟨fontTest, "font", "Use --font-family-* tokens"⟩]

/-- One `hardcoded-value` violation. -/
structure HViolation where
  vtype : String
  message : String
  severity : String
  file : String
  line : Nat
  content : String
  suggestion : String
deriving DecidableEq

/-- The inner line loop of `checkHardcodedInFile` for one pattern:
a line is flagged when the pattern matches it and it does not contain
`var(--`, is not a comment line, and does not mention `fallback` or
`default`; the reported line number is one-based. -/
def checkLines (pat : HPattern) (file : String) (idx : Nat) :
    List String → List HViolation
  | [] => []
  | line :: rest =>
    (if pat.test line && !(strContains line "var(--") then
      if strStarts (String.mk (trimChars line.toList)) "//" ||
         strStarts (String.mk (trimChars line.toList)) "/*" then []
      else if strContains line "fallback" || strContains line "default" then []
      else
        [⟨"hardcoded-value", "Hardcoded " ++ pat.ptype ++ " value found",
          "warning", file, idx + 1, String.mk (trimChars line.toList),
          pat.suggestion⟩]
     else []) ++ checkLines pat file (idx + 1) rest

/-- Model of `checkHardcodedInFile`: the outer loop runs every pattern over every
line of the file. -/
def checkHardcodedInFile (file content : String) : List HViolation :=
  hardcodedPatterns.flatMap fun p => checkLines p file 0 (splitLines content)

/-! ## BEM naming check (`validateBEMNaming` / `isValidBEMClass`) -/

/-- Lowercase letter `[a-z]`. -/
def isLowerAlpha (c : Char) : Bool := 'a' ≤ c && c ≤ 'z'

/-- Character class `[a-z0-9-]` of the BEM grammar. -/
def bemChar (c : Char) : Bool := isLowerAlpha c || c.isDigit || c = '-'

/-- After the modifier head `--x`: the remaining `[a-z0-9-]*` then end. -/
def bemTailAll (cs : List Char) : Bool := cs.all bemChar

/-- The optional `(--[a-z][a-z0-9-]*)?` group followed by the anchor. -/
def bemOptMod (cs : List Char) : Bool :=
  cs.isEmpty ||
    (match cs with
     | '-' :: '-' :: c :: rest => isLowerAlpha c && bemTailAll rest
     | _ => false)

/-- After `__e`: consume `[a-z0-9-]*` with backtracking into the optional
modifier group. -/
def bemAfterElem : List Char → Bool
  | [] => bemOptMod []
  | c :: rest => bemOptMod (c :: rest) || (bemChar c && bemAfterElem rest)

/-- The optional `(__[a-z][a-z0-9-]*)?` group. -/
def bemElem (cs : List Char) : Bool :=
  match cs with
  | '_' :: '_' :: c :: rest => isLowerAlpha c && bemAfterElem rest
  | _ => false

/-- After the block head: consume `[a-z0-9-]*` with backtracking into the
optional element and modifier groups. -/
def bemAfterBlock : List Char → Bool
  | [] => bemOptMod [] || bemElem []
  | c :: rest =>
    bemOptMod (c :: rest) || bemElem (c :: rest) ||
      (bemChar c && bemAfterBlock rest)

/-- The anchored BEM grammar
`^[a-z][a-z0-9-]*(__[a-z][a-z0-9-]*)?(--[a-z][a-z0-9-]*)?$`. -/
def bemPattern (s : String) : Bool :=
  match s.toList with
  | c :: rest => isLowerAlpha c && bemAfterBlock rest
  | [] => false

/-- Test of `^[a-z]+$` (a nonempty all-lowercase word). -/
def lowerWordTest (s : String) : Bool :=
  !s.isEmpty && s.toList.all isLowerAlpha

/-- Model of `isValidBEMClass`: utility prefixes, very short names, and short
lowercase words are accepted outright; otherwise the BEM grammar
decides. -/
def isValidBEMClass (c : String) : Bool :=
  if strStarts c "is-" || strStarts c "has-" || strStarts c "js-" ||
     decide (c.length ≤ 2) ||
     (lowerWordTest c && decide (c.length ≤ 4)) then
    true
  else bemPattern c

/-- One entry of the `invalidClasses` list built by `extractBEMClasses`:
the file, the offending class name, and the one-based line number. -/
structure BemOcc where
  file : String
  className : String
  line : Nat
deriving DecidableEq

/-- The per-class-name step of `extractBEMClasses`: every nonempty class
name extracted on a line is validated, and the failures are collected
into `invalidClasses` (from which `validateBEMNaming` emits one
`bem-violation` each). -/
def collectInvalidClasses (file : String) (line : Nat)
    (classes : List String) : List BemOcc :=
  classes.filterMap fun c =>
    if 0 < c.length then
      if isValidBEMClass c then none else some ⟨file, c, line⟩
    else none

/-! ## Architecture validator (scripts/validate-architecture.js)

The file tree is a list of `(path, content)` pairs; paths are relative
to the project root (`find` prints them with a leading `./`, stripped
here).  `findFiles` runs ``find . -path "./<glob>" -type f`` and filters
out `node_modules`; with `find`'s `-path`, `*` also matches `/`, so
`components/**/*.js` requires a `/` somewhere after `components/` and a
final `.js`. -/

/-- One architecture violation (`addViolation`). -/
structure ArchViolation where
  vtype : String
  file : String
  description : String
deriving DecidableEq

/-- Whether a path is returned by `findFiles('components/**/*.js')`. -/
def isComponentJsGlob (p : String) : Bool :=
  strStarts p "components/" && ((p.drop 11).toList.contains '/') &&
    strEnds p ".js" && !(strContains p "node_modules")

/-- Model of `validateLayerDependencies`: only the component-layer glob is
scanned; a file whose content contains `../pages/` or `../workflows/`
is flagged with one `LAYER_VIOLATION`. -/
def validateLayerDependencies (files : List (String × String)) :
    List ArchViolation :=
  files.filterMap fun f =>
    if isComponentJsGlob f.1 then
      if strContains f.2 "../pages/" || strContains f.2 "../workflows/" then
        some ⟨"LAYER_VIOLATION", f.1,
          "Layer 1 (Components) cannot reference Layer 2 (Pages) or Layer 3 (Workflows)"⟩
      else none
    else none

/-! ## Metadata extractor (`RegistryManager.extractMetadata`)

Each regex of the extractor is reproduced as a leftmost-match scanner
with the source pattern's greedy and lazy semantics. -/

/-- Position match for
`static get observedAttributes\(\)\s*\x7b\s*return\s*\[(.*?)\]` with the
dot-all flag: the lazy capture is everything up to the first `]`. -/
def matchObservedAt (cs : List Char) : Option (List Char) :=
  match chopLit "static get observedAttributes()".toList cs with
  | none => none
  | some r1 =>
    match r1.dropWhile isSpaceChar with
    | c :: r2 =>
      if c = lbraceChar then
        match chopLit "return".toList (r2.dropWhile isSpaceChar) with
        | none => none
        | some r3 =>
          match r3.dropWhile isSpaceChar with
          | '[' :: r4 =>
            if (r4.dropWhile fun c2 => c2 ≠ ']').isEmpty then none
            else some (r4.takeWhile fun c2 => c2 ≠ ']')
          | _ => none
      else none
    | [] => none

/-- Leftmost match of the observedAttributes pattern. -/
def matchObserved (cs : List Char) : Option (List Char) :=
  firstSome matchObservedAt cs

/-- Position match for `\/\*\*\s*\n\s*\*\s*(.*?)\n` (no dot-all flag):
after `/**`, the whitespace run must contain a newline and be followed by
`*`; after that `*`, greedy whitespace then a lazy non-newline capture
terminated by a newline, with backtracking into the whitespace run when
no later newline exists. -/
def matchDescAt (cs : List Char) : Option (List Char) :=
  match chopLit "/**".toList cs with
  | none => none
  | some r1 =>
    if (r1.takeWhile isSpaceChar).contains '\n' then
      match r1.drop (r1.takeWhile isSpaceChar).length with
      | '*' :: r2 =>
        if ((r2.drop (r2.takeWhile isSpaceChar).length).contains '\n') then
          some ((r2.drop (r2.takeWhile isSpaceChar).length).takeWhile
            fun c => c ≠ '\n')
        else if (r2.takeWhile isSpaceChar).contains '\n' then some []
        else none
      | _ => none
    else none

/-- Leftmost match of the JSDoc description pattern. -/
def matchDesc (cs : List Char) : Option (List Char) :=
  firstSome matchDescAt cs

/-- The `\d+\.\d+\.\d+` part of the version pattern. -/
def digitsDotted (r2 : List Char) : Option String :=
  if (r2.takeWhile Char.isDigit).isEmpty then none
  else
    match r2.drop (r2.takeWhile Char.isDigit).length with
    | '.' :: r3 =>
      if (r3.takeWhile Char.isDigit).isEmpty then none
      else
        match r3.drop (r3.takeWhile Char.isDigit).length with
        | '.' :: r4 =>
          if (r4.takeWhile Char.isDigit).isEmpty then none
          else
            some (String.mk
              (r2.takeWhile Char.isDigit ++ '.' :: r3.takeWhile Char.isDigit ++
                '.' :: r4.takeWhile Char.isDigit))
        | _ => none
    | _ => none

/-- Position match for `@version\s+(\d+\.\d+\.\d+)`. -/
def matchVersionAt (cs : List Char) : Option String :=
  match chopLit "@version".toList cs with
  | none => none
  | some r1 =>
    if (r1.takeWhile isSpaceChar).isEmpty then none
    else digitsDotted (r1.drop (r1.takeWhile isSpaceChar).length)

/-- Leftmost match of the version pattern. -/
def matchVersion (cs : List Char) : Option String :=
  firstSome matchVersionAt cs

/-- Quote class `['"]` of the dependency pattern. -/
def isQuote2 (c : Char) : Bool := c = '"' || c = squoteChar

/-- After the `from` keyword: `\s+['"](.*?)['"]` — mandatory whitespace,
an opening quote, a lazy non-newline capture up to the first quote
character, and that closing quote.  Returns the capture and the
remainder of the text after the match. -/
def tryFromAt (r : List Char) : Option (List Char × List Char) :=
  match chopLit "from".toList r with
  | none => none
  | some r2 =>
    if (r2.takeWhile isSpaceChar).isEmpty then none
    else
      match r2.drop (r2.takeWhile isSpaceChar).length with
      | [] => none
      | q :: r4 =>
        if isQuote2 q then
          match r4.drop
              ((r4.takeWhile fun c => !(isQuote2 c || c = '\n')).length) with
          | c :: r5 =>
            if isQuote2 c then
              some (r4.takeWhile fun c2 => !(isQuote2 c2 || c2 = '\n'), r5)
            else none
          | [] => none
        else none

/-- The lazy `.*?` between the `import` keyword and `from`: try `from` at
the current position, then extend over non-newline characters. -/
def findFrom : List Char → Option (List Char × List Char)
  | [] => none
  | c :: rest =>
    match tryFromAt (c :: rest) with
    | some res => some res
    | none => if c = '\n' then none else findFrom rest

/-- Position match for the dependency pattern
`import.*?from\s+['"](.*?)['"]`. -/
def importAt (cs : List Char) : Option (List Char × List Char) :=
  match chopLit "import".toList cs with
  | none => none
  | some r1 => findFrom r1

/-- Global scan for the dependency pattern: the captured module paths of
every match of `import.*?from\s+['"](.*?)['"]/g`, in order; after a
match ending with remainder `r5`, `skip` covers the matched characters
(`lastIndex`). -/
def scanImportsGo (skip : Nat) : List Char → List (List Char)
  | [] => []
  | c :: rest =>
    match skip with
    | k + 1 => scanImportsGo k rest
    | 0 =>
      match importAt (c :: rest) with
      | some (cap, r5) => cap :: scanImportsGo ((c :: rest).length - r5.length - 1) rest
      | none => scanImportsGo 0 rest

/-- All dependency-pattern captures of a file, in order. -/
def scanImports (cs : List Char) : List (List Char) := scanImportsGo 0 cs

/-- Quote class ``[`'"]`` of the className pattern. -/
def isQuote3 (c : Char) : Bool := c = '"' || c = squoteChar || c = btickChar

/-- Position match for ``className\s*=\s*[`'"]([^`'"]+)[`'"]``: the
greedy capture is the maximal nonempty run of non-quote characters after
the opening quote, and it must be followed by a quote character.
Returns the capture and the remainder after the match. -/
def classAt (cs : List Char) : Option (List Char × List Char) :=
  match chopLit "className".toList cs with
  | none => none
  | some r1 =>
    match r1.drop (r1.takeWhile isSpaceChar).length with
    | '=' :: r3 =>
      match r3.drop (r3.takeWhile isSpaceChar).length with
      | q :: r5 =>
        if isQuote3 q then
          if (r5.takeWhile fun c => !isQuote3 c).isEmpty then none
          else
            match r5.drop ((r5.takeWhile fun c => !isQuote3 c).length) with
            | c2 :: r6 =>
              if isQuote3 c2 then
                some (r5.takeWhile fun c => !isQuote3 c, r6)
              else none
            | [] => none
        else none
      | _ => none
    | _ => none

/-- Global scan for the className pattern: the captures of every match
of ``className\s*=\s*[`'"]([^`'"]+)[`'"]/g``, in order; `skip` covers
the characters of the previous match (`lastIndex`). -/
def scanClassGo (skip : Nat) : List Char → List (List Char)
  | [] => []
  | c :: rest =>
    match skip with
    | k + 1 => scanClassGo k rest
    | 0 =>
      match classAt (c :: rest) with
      | some (cap, r6) => cap :: scanClassGo ((c :: rest).length - r6.length - 1) rest
      | none => scanClassGo 0 rest

/-- All className-pattern captures of a file, in order. -/
def scanClassNames (cs : List Char) : List (List Char) := scanClassGo 0 cs

/-- Remove every single or double quote (`.replace(/['"]/g, '')`). -/
def stripQuotes (cs : List Char) : List Char :=
  cs.filter fun c => !isQuote2 c

/-- The metadata record built by `extractMetadata` (the `examples` field
is initialised empty and never filled by the source). -/
structure Meta where
  props : List String
  description : String
  version : String
  dependencies : List String
  examples : List String
  bemClasses : List String
deriving DecidableEq

/-- Model of `extractMetadata`: each field falls back to its default when its
pattern does not match; a total function of the file text. -/
def extractMetadata (content : String) : Meta :=
  { props :=
      match matchObserved content.toList with
      | some cap =>
        ((splitComma cap).map fun p =>
          String.mk (stripQuotes (trimChars p))).filter
            fun s => decide (0 < s.length)
      | none => []
    description :=
      match matchDesc content.toList with
      | some cap => String.mk (trimChars cap)
      | none => ""
    version := (matchVersion content.toList).getD "1.0.0"
    dependencies :=
      (scanImports content.toList).filterMap fun d =>
        if "./".toList.isPrefixOf d then some (String.mk (d.drop 2)) else none
    examples := []
    bemClasses :=
      (scanClassNames content.toList).map fun c =>
        String.mk (c.takeWhile fun x => x ≠ ' ') }

/-! ## Registry manager (scripts/registry-manager.js)

The JSON manifest is embedded as a structured value; `JSON.stringify`
followed by `JSON.parse` is the identity on such plain data, so the disk
is an `Option Manifest` and the `JSON.stringify(a) !== JSON.stringify(b)`
comparison of `scanComponents` (both objects built with the same key
order) is structural inequality.  JavaScript objects used as maps are
association lists whose insert keeps an existing key in place, so keys
stay unique. -/

/-- One manifest component record, with the key order used by
`analyzeComponent` (`name`, `path`, `layer`, the extracted metadata,
`lastModified`, `fileSize`). -/
structure ComponentRecord where
  name : String
  path : String
  layer : String
  props : List String
  description : String
  version : String
  dependencies : List String
  examples : List String
  bemClasses : List String
  lastModified : String
  fileSize : Nat
deriving DecidableEq

/-- One entry of a `layers.<layer>` projection. -/
structure LayerEntry where
  path : String
  props : List String
  lastModified : String
deriving DecidableEq

/-- The three `layers` projections. -/
structure LayersIdx where
  component : List (String × LayerEntry)
  page : List (String × LayerEntry)
  workflow : List (String × LayerEntry)
deriving DecidableEq

/-- The manifest `stats` object. -/
structure ManifestStats where
  totalComponents : Nat
  lastUpdated : String
deriving DecidableEq

/-- The manifest document. -/
structure Manifest where
  version : String
  framework : String
  generated : String
  components : List (String × ComponentRecord)
  layers : LayersIdx
  stats : ManifestStats
deriving DecidableEq

/-- A source file seen by the scanner: its project-relative path, text,
and the `fs.stat` data the scanner reads (`mtime` as ISO string, size). -/
structure FileInput where
  path : String
  content : String
  mtime : String
  size : Nat
deriving DecidableEq

/-- Object insert: an existing key is overwritten in place, a new key is
appended (JavaScript `obj[k] = v`). -/
def objSet {α : Type} : List (String × α) → String → α → List (String × α)
  | [], k, v => [(k, v)]
  | (k', v') :: t, k, v =>
    if k' = k then (k, v) :: t else (k', v') :: objSet t k v

/-- Object lookup (JavaScript `obj[k]`, `undefined` as `none`). -/
def objGet {α : Type} : List (String × α) → String → Option α
  | [], _ => none
  | (k', v') :: t, k => if k' = k then some v' else objGet t k

/-- Number of keys of a JavaScript object
(`Object.keys(obj).length`). -/
def countKeys {α : Type} (l : List (String × α)) : Nat :=
  (l.map Prod.fst).dedup.length

/-- The fresh manifest `loadManifest` synthesizes when no file exists. -/
def freshManifest (now : String) : Manifest :=
  ⟨"1.0.0", "@ui-canvas/framework", now, [], ⟨[], [], []⟩, ⟨0, now⟩⟩

/-- Model of `loadManifest`: parse the existing file, or synthesize a fresh
manifest. -/
def loadManifest : Option Manifest → String → Manifest
  | some doc, _ => doc
  | none, now => freshManifest now

/-- Model of `saveManifest`: recompute `stats` and write the document (the
returned value is what lands on disk). -/
def saveManifest (m : Manifest) (now : String) : Manifest :=
  { m with stats := ⟨countKeys m.components, now⟩ }

/-- Node `path.basename(p)`: the part after the last slash. -/
def baseNameStr (p : String) : String :=
  String.mk (p.toList.reverse.takeWhile fun c => c ≠ '/').reverse

/-- Node basename with the `.js` extension argument: a trailing `.js` is
stripped (Node keeps the name unchanged when it equals the extension). -/
def basenameNoJs (p : String) : String :=
  if baseNameStr p ≠ ".js" ∧ strEnds (baseNameStr p) ".js" then
    String.mk ((baseNameStr p).toList.dropLast.dropLast.dropLast)
  else baseNameStr p

/-- Layer derivation of `analyzeComponent` from the path prefix. -/
def deriveLayer (p : String) : String :=
  if strStarts p "pages/" then "page"
  else if strStarts p "workflows/" then "workflow"
  else "component"

/-- Model of `analyzeComponent` for a readable file: derive the name from the
filename, the layer from the path, extract metadata, and assemble the
record (its key order is fixed by the object literal of the source). -/
def analyzeComponent (f : FileInput) : String × ComponentRecord :=
  (basenameNoJs f.path,
   ⟨basenameNoJs f.path, f.path, deriveLayer f.path,
    (extractMetadata f.content).props, (extractMetadata f.content).description,
    (extractMetadata f.content).version,
    (extractMetadata f.content).dependencies,
    (extractMetadata f.content).examples, (extractMetadata f.content).bemClasses,
    f.mtime, f.size⟩)

/-- Write one entry of the `layers.<layer>` projection; `layer` is
always one of the three names produced by `deriveLayer`. -/
def setLayerEntry (L : LayersIdx) (layer name : String) (e : LayerEntry) :
    LayersIdx :=
  if layer = "page" then { L with page := objSet L.page name e }
  else if layer = "workflow" then { L with workflow := objSet L.workflow name e }
  else { L with component := objSet L.component name e }

/-- The file loop of `scanComponents`: each file's record is compared
against the stored record of the same name by the stringify equality
(structural equality here); absent records count as added, different
records as updated, identical ones as no-ops, and the layer projection is
rewritten in every case. -/
def scanGo : Manifest → List FileInput → Nat → Nat → Nat →
    Manifest × Nat × Nat × Nat
  | m, [], scanned, added, updated => (m, scanned, added, updated)
  | m, f :: rest, scanned, added, updated =>
    let nm := (analyzeComponent f).1
    let md := (analyzeComponent f).2
    let step :=
      match objGet m.components nm with
      | none => (objSet m.components nm md, added + 1, updated)
      | some existing =>
        if existing = md then (m.components, added, updated)
        else (objSet m.components nm md, added, updated + 1)
    scanGo
      { m with
        components := step.1,
        layers := setLayerEntry m.layers md.layer nm
          ⟨md.path, md.props, md.lastModified⟩ }
      rest (scanned + 1) step.2.1 step.2.2

/-- Model of `scanComponents`: load the manifest from disk, process the files
found under the three layer roots, save, and report
`(manifest-on-disk, scanned, added, updated)`. -/
def scanComponents (disk : Option Manifest) (files : List FileInput)
    (now : String) : Manifest × Nat × Nat × Nat :=
  ((saveManifest (scanGo (loadManifest disk now) files 0 0 0).1 now),
   (scanGo (loadManifest disk now) files 0 0 0).2)

/-- The layer a record's path implies, as computed by
`validateRegistry`'s conditional expression. -/
def expectedLayer (p : String) : String :=
  if strStarts p "pages/" then "page"
  else if strStarts p "workflows/" then "workflow"
  else "component"

/-- The issue list `validateRegistry` accumulates for one record: the
exists-on-disk check, the hyphen check, and the layer-consistency check,
in source order.  The disk is the list of existing project-relative
paths. -/
def componentIssues (name : String) (r : ComponentRecord)
    (fsPaths : List String) : List String :=
  (if decide (r.path ∈ fsPaths) then [] else ["File not found: " ++ r.path]) ++
  (if strContains name "-" then []
   else ["Component name must contain hyphen (web component standard)"]) ++
  (if r.layer = expectedLayer r.path then []
   else ["Layer mismatch: expected " ++ expectedLayer r.path ++ ", got " ++
         r.layer])

/-- One entry of the `issues` list returned by `validateRegistry`. -/
structure RegIssue where
  component : String
  issues : List String
deriving DecidableEq

/-- Model of `validateRegistry`: each record with a nonempty issue list is
reported; the others are counted valid. -/
def validateRegistry : List (String × ComponentRecord) → List String →
    Nat × List RegIssue
  | [], _ => (0, [])
  | (name, r) :: rest, fsPaths =>
    let tail := validateRegistry rest fsPaths
    if 0 < (componentIssues name r fsPaths).length then
      (tail.1, ⟨name, componentIssues name r fsPaths⟩ :: tail.2)
    else (tail.1 + 1, tail.2)

/-- All three per-record checks passing, as a single test. -/
def recordOk (name : String) (r : ComponentRecord) (fsPaths : List String) :
    Bool :=
  decide (r.path ∈ fsPaths) && strContains name "-" &&
    decide (r.layer = expectedLayer r.path)

/-! ## Concrete fixtures for the witnesses and counterexamples -/

/-- A page-layer file whose content references a workflow-layer relative
path. -/
def c1PageFile : String × String :=
  ("pages/detail-page.js", "ref ../workflows/checkout-flow.js")

/-- A component-layer file referencing a page-layer relative path. -/
def c1CompFile : String × String :=
  ("components/cards/bad-card.js", "ref ../pages/home-page.js")

/-- Two files with different paths but the same derived name `x`. -/
def c2CollidingTree : List FileInput :=
  [⟨"components/a/x.js", "", "t0", 0⟩, ⟨"components/b/x.js", "", "t0", 0⟩]

/-- A one-file tree with a unique derived name. -/
def c2SimpleTree : List FileInput :=
  [⟨"components/cards/my-card.js", "", "t0", 7⟩]

/-- A one-record component map for the save invariant. -/
def c3Manifest : Manifest :=
  ⟨"1.0.0", "@ui-canvas/framework", "t0",
   [("my-card",
     ⟨"my-card", "components/cards/my-card.js", "component", [], "", "1.0.0",
      [], [], [], "t0", 10⟩)],
   ⟨[], [], []⟩, ⟨0, "t0"⟩⟩

/-- One declared token that is never referenced exactly, with a file
referencing a longer-named token. -/
def c5Tokens : List (String × TokenData) := [("--x", ⟨"white", 0, "color"⟩)]

/-- The scanned file set for the prefix-collision counterexample. -/
def c5Files : List (String × String) :=
  [("components/app.css", "color: var(--x-y);")]

/-- Token set and files for the amended usage-count witness. -/
def c5wTokens : List (String × TokenData) :=
  [("--card-bg", ⟨"white", 0, "color"⟩), ("--gap", ⟨"4px", 0, "spacing"⟩)]

/-- Files referencing `--card-bg` once and `--gap` never. -/
def c5wFiles : List (String × String) :=
  [("components/card.css", "background: var(--card-bg);")]

/-- Token set for the unknown-token witness. -/
def c6Tokens : List (String × TokenData) := [("--x", ⟨"red", 0, "color"⟩)]

/-- A file referencing an undeclared token. -/
def c6Files : List (String × String) :=
  [("components/app.css", "color: var(--totally-unknown);")]

/-- A valid record whose file exists. -/
def c7RecA : ComponentRecord :=
  ⟨"my-card", "components/cards/my-card.js", "component", [], "", "1.0.0",
   [], [], [], "t", 10⟩

/-- A record whose file is missing from the disk. -/
def c7RecB : ComponentRecord :=
  ⟨"my-list", "components/lists/my-list.js", "component", [], "", "1.0.0",
   [], [], [], "t", 11⟩

/-- The component map for the registry-validation witness. -/
def c7Comps : List (String × ComponentRecord) :=
  [("my-card", c7RecA), ("my-list", c7RecB)]

/-- The disk contents for the registry-validation witness: only the
first record's file exists. -/
def c7Fs : List String := ["components/cards/my-card.js"]

/-- A single line that mixes a token reference with a hex fallback. -/
def c9Content : String := "color: var(--x, #fff)"

end UICanvas

namespace UICanvas

/-! ## Shared helper lemmas -/

/-- Lookup after `objSet` at the written key. -/
theorem objGet_objSet_self {α : Type} (l : List (String × α)) (k : String)
    (v : α) : objGet (objSet l k v) k = some v := by
  induction l with
  | nil => simp [objSet, objGet]
  | cons p t ih =>
    by_cases h : p.1 = k
    · simp [objSet, objGet, h]
    · simp [objSet, objGet, h, ih]

/-- Lookup after `objSet` at a different key. -/
theorem objGet_objSet_other {α : Type} (l : List (String × α)) (k k' : String)
    (v : α) (h : k' ≠ k) : objGet (objSet l k v) k' = objGet l k' := by
  induction l with
  | nil => simp [objSet, objGet, Ne.symm h]
  | cons p t ih =>
    by_cases hp : p.1 = k
    · simp [objSet, objGet, hp, Ne.symm h]
    · simp [objSet, objGet, hp, ih]

/-- In a list with `Nodup` keys, two entries with the same key are the
same entry. -/
theorem nodup_keys_eq {α : Type} {l : List (String × α)} {k : String}
    {a b : α} (hnd : (l.map Prod.fst).Nodup) (ha : (k, a) ∈ l)
    (hb : (k, b) ∈ l) : a = b := by
  induction l with
  | nil => cases ha
  | cons p t ih =>
    rw [List.map_cons, List.nodup_cons] at hnd
    rcases List.mem_cons.mp ha with ha1 | ha1 <;>
      rcases List.mem_cons.mp hb with hb1 | hb1
    · have : (k, a) = (k, b) := ha1.trans hb1.symm
      exact (Prod.mk.injEq _ _ _ _ ▸ this).2
    · exact absurd (List.mem_map_of_mem Prod.fst hb1) (by
        rw [← ha1] at hnd
        simpa using hnd.1)
    · exact absurd (List.mem_map_of_mem Prod.fst ha1) (by
        rw [← hb1] at hnd
        simpa using hnd.1)
    · exact ih hnd.2 ha1 hb1

/-! ## Claim C3 -/

/-- Claim C3: after every save of the manifest, `stats.totalComponents`
equals the number of entries in the components map, regardless of what
operations mutated the manifest before the save (a JavaScript object's
keys are distinct, which here is the `Nodup` hypothesis on the
association list embedding it). -/
theorem saveManifest_totalComponents (m : Manifest) (now : String)
    (hnd : (m.components.map Prod.fst).Nodup) :
    (saveManifest m now).stats.totalComponents =
      (saveManifest m now).components.length := by
  show countKeys m.components = m.components.length
  rw [countKeys, List.dedup_eq_self.mpr hnd, List.length_map]

/-- Witness for C3 at a concrete one-record manifest. -/
theorem saveManifest_totalComponents_witness :
    (saveManifest c3Manifest "t1").stats.totalComponents =
      (saveManifest c3Manifest "t1").components.length :=
  saveManifest_totalComponents c3Manifest "t1" (by decide)

/-! ## Claim C4 -/

/-- Claim C4: for every manifest state, saving and then loading
reproduces an equivalent manifest — the loaded document is exactly the
saved one, its per-record component map equals the map before the round
trip (hence every record field is preserved), and the component count is
unchanged. -/
theorem save_load_roundtrip (m : Manifest) (t1 t2 : String) :
    loadManifest (some (saveManifest m t1)) t2 = saveManifest m t1 ∧
    (loadManifest (some (saveManifest m t1)) t2).components = m.components ∧
    countKeys (loadManifest (some (saveManifest m t1)) t2).components =
      countKeys m.components :=
  ⟨rfl, rfl, rfl⟩

/-! ## Claim C10 -/

/-- Claim C10: the BEM naming check accepts every class name of length
at most two, whatever its characters, and consequently no such class
name is ever collected as a bem-violation. -/
theorem bem_short_class_valid (s : String) (hs : s.length ≤ 2)
    (file : String) (line : Nat) (classes : List String) :
    isValidBEMClass s = true ∧
    ∀ e ∈ collectInvalidClasses file line classes, 2 < e.className.length := by
  have short_valid : ∀ c : String, c.length ≤ 2 → isValidBEMClass c = true := by
    intro c hc
    have h2 : decide (c.length ≤ 2) = true := decide_eq_true hc
    simp [isValidBEMClass, h2]
  refine ⟨short_valid s hs, ?_⟩
  intro e he
  rw [collectInvalidClasses, List.mem_filterMap] at he
  obtain ⟨c, _, hc⟩ := he
  split at hc
  · split at hc
    · exact absurd hc (by simp)
    · rename_i hvalid
      simp only [Option.some.injEq] at hc
      subst hc
      show 2 < c.length
      by_contra hlen
      exact hvalid (short_valid c (by omega))
  · exact absurd hc (by simp)

/-- Witness for C10 at the class name `A$` (length two, uppercase and
symbol). -/
theorem bem_short_class_valid_witness :
    isValidBEMClass "A$" = true ∧
    ∀ e ∈ collectInvalidClasses "components/app.css" 3
        ["A$", "Bad_Class", "x!"], 2 < e.className.length :=
  bem_short_class_valid "A$" (by decide) "components/app.css" 3
    ["A$", "Bad_Class", "x!"]

/-! ## Claim C1 -/

/-- Counterexample to claim C1 as stated: a page-layer file whose
content contains a relative reference to a workflow-layer path produces
no violation at all — `validateLayerDependencies` never scans page-layer
files. -/
theorem layer_violation_page_counterexample :
    strContains c1PageFile.2 "../workflows/" = true ∧
    validateLayerDependencies [c1PageFile] = [] := by
  constructor
  · decide
  · decide

/-- Claim C1 as amended: only component-layer files are checked — for
every file matched by the `components/**/*.js` glob whose content
contains `../pages/` or `../workflows/`, the validator reports a
`LAYER_VIOLATION` naming that file. -/
theorem layer_violation_component_flagged (files : List (String × String))
    (p c : String) (hmem : (p, c) ∈ files)
    (hglob : isComponentJsGlob p = true)
    (href : strContains c "../pages/" = true ∨
      strContains c "../workflows/" = true) :
    ∃ v ∈ validateLayerDependencies files,
      v.vtype = "LAYER_VIOLATION" ∧ v.file = p := by
  refine ⟨⟨"LAYER_VIOLATION", p,
    "Layer 1 (Components) cannot reference Layer 2 (Pages) or Layer 3 (Workflows)"⟩,
    ?_, rfl, rfl⟩
  rw [validateLayerDependencies, List.mem_filterMap]
  refine ⟨(p, c), hmem, ?_⟩
  rcases href with h | h <;> simp [hglob, h]

/-- Witness for the amended C1 at a concrete component-layer file. -/
theorem layer_violation_component_flagged_witness :
    ∃ v ∈ validateLayerDependencies [c1PageFile, c1CompFile],
      v.vtype = "LAYER_VIOLATION" ∧ v.file = "components/cards/bad-card.js" :=
  layer_violation_component_flagged [c1PageFile, c1CompFile]
    "components/cards/bad-card.js" c1CompFile.2 (by decide) (by decide)
    (Or.inl (by decide))

/-! ## Claim C8 -/

/-- Claim C8: the metadata extractor is a total function of the file
text (it never throws), and when a pattern has no match the
corresponding field takes its default — `props` empty, `description`
empty, `version` `1.0.0`, `dependencies` empty, `bemClasses` empty
(and the never-populated `examples` list is empty as well). -/
theorem extractMetadata_defaults (content : String)
    (h1 : matchObserved content.toList = none)
    (h2 : matchDesc content.toList = none)
    (h3 : matchVersion content.toList = none)
    (h4 : scanImports content.toList = [])
    (h5 : scanClassNames content.toList = []) :
    extractMetadata content = ⟨[], "", "1.0.0", [], [], []⟩ := by
  have h1' : matchObserved content.data = none := h1
  have h2' : matchDesc content.data = none := h2
  have h3' : matchVersion content.data = none := h3
  have h4' : scanImports content.data = [] := h4
  have h5' : scanClassNames content.data = [] := h5
  simp [extractMetadata, h1', h2', h3', h4', h5']

/-- Witness for C8 at a concrete patternless input. -/
theorem extractMetadata_defaults_witness :
    extractMetadata "hello world" = ⟨[], "", "1.0.0", [], [], []⟩ :=
  extractMetadata_defaults "hello world" (by decide) (by decide) (by decide)
    (by decide) (by decide)

/-! ## Claim C9 -/

/-- Every violation produced by one pattern's line loop points at a
one-based line whose text does not contain `var(--`. -/
theorem checkLines_mem (pat : HPattern) (file : String) :
    ∀ (ls : List String) (k : Nat) (v : HViolation),
      v ∈ checkLines pat file k ls →
      ∃ j line, ls[j]? = some line ∧ v.line = k + j + 1 ∧
        strContains line "var(--" = false := by
  intro ls
  induction ls with
  | nil => intro k v hv; simp [checkLines] at hv
  | cons line rest ih =>
    intro k v hv
    rw [checkLines] at hv
    rcases List.mem_append.mp hv with h | h
    · have hns : strContains line "var(--" = false ∧ v.line = k + 1 := by
        split at h
        · rename_i hguard
          split at h
          · simp at h
          · split at h
            · simp at h
            · simp only [List.mem_singleton] at h
              subst h
              refine ⟨?_, rfl⟩
              simp only [Bool.and_eq_true, Bool.not_eq_true'] at hguard
              exact hguard.2
        · simp at h
      exact ⟨0, line, by simp, by omega, hns.1⟩
    · obtain ⟨j, line', h1, h2, h3⟩ := ih (k + 1) v h
      exact ⟨j + 1, line', by simpa using h1, by omega, h3⟩

/-- Claim C9: in the hardcoded-value check, every line containing
`var(--` is exempt from all hardcoded-value warnings — no violation of
`checkHardcodedInFile` carries that line's number, whatever else the
line contains. -/
theorem hardcoded_var_line_exempt (file content : String) (i : Nat)
    (line : String) (hline : (splitLines content)[i]? = some line)
    (hvar : strContains line "var(--" = true) :
    ∀ v ∈ checkHardcodedInFile file content, v.line ≠ i + 1 := by
  intro v hv heq
  rw [checkHardcodedInFile, List.mem_flatMap] at hv
  obtain ⟨p, _, hvp⟩ := hv
  obtain ⟨j, line', h1, h2, h3⟩ := checkLines_mem p file (splitLines content) 0 v hvp
  have hj : j = i := by omega
  rw [hj, hline] at h1
  have : line = line' := by simpa using h1
  rw [← this] at h3
  simp [hvar] at h3

/-- Witness for C9: a line holding both a `var(--` reference and a hex
literal is never flagged. -/
theorem hardcoded_var_line_exempt_witness :
    strContains c9Content "var(--" = true ∧
    ∀ v ∈ checkHardcodedInFile "components/card.css" c9Content, v.line ≠ 1 :=
  ⟨by decide,
   hardcoded_var_line_exempt "components/card.css" c9Content 0 c9Content
     (by decide) (by decide)⟩

/-! ## Claim C2 -/

/-- The scan loop writes only keys derived from the processed files. -/
theorem scanGo_comps_untouched (files : List FileInput) :
    ∀ (m : Manifest) (s a u : Nat) (k : String),
      k ∉ files.map (fun f => (analyzeComponent f).1) →
      objGet (scanGo m files s a u).1.components k = objGet m.components k := by
  induction files with
  | nil => intro m s a u k _; rfl
  | cons f rest ih =>
    intro m s a u k hk
    simp only [List.map_cons, List.mem_cons, not_or] at hk
    obtain ⟨hk1, hk2⟩ := hk
    rw [scanGo]
    rcases hoc : objGet m.components (analyzeComponent f).1 with _ | ex
    · simp only [hoc]
      rw [ih _ _ _ _ _ hk2]
      exact objGet_objSet_other _ _ _ _ hk1
    · by_cases he : ex = (analyzeComponent f).2
      · simp only [hoc, he, if_pos]
        rw [ih _ _ _ _ _ hk2]
      · simp only [hoc, if_neg he]
        rw [ih _ _ _ _ _ hk2]
        exact objGet_objSet_other _ _ _ _ hk1

/-- After a scan over files with pairwise distinct derived names, the
resulting components map holds exactly each file's extracted record. -/
theorem scanGo_lookup (files : List FileInput) :
    ∀ (m : Manifest) (s a u : Nat),
      (files.map fun f => (analyzeComponent f).1).Nodup →
      ∀ f ∈ files,
        objGet (scanGo m files s a u).1.components (analyzeComponent f).1 =
          some (analyzeComponent f).2 := by
  induction files with
  | nil => intro m s a u _ f hf; cases hf
  | cons g rest ih =>
    intro m s a u hnd f hf
    rw [List.map_cons, List.nodup_cons] at hnd
    rcases List.mem_cons.mp hf with rfl | hf
    · rw [scanGo]
      rcases hoc : objGet m.components (analyzeComponent f).1 with _ | ex
      · simp only [hoc]
        rw [scanGo_comps_untouched rest _ _ _ _ _ hnd.1]
        exact objGet_objSet_self _ _ _
      · by_cases he : ex = (analyzeComponent f).2
        · simp only [hoc, he, if_pos]
          rw [scanGo_comps_untouched rest _ _ _ _ _ hnd.1]
          rw [hoc, he]
        · simp only [hoc, if_neg he]
          rw [scanGo_comps_untouched rest _ _ _ _ _ hnd.1]
          exact objGet_objSet_self _ _ _
    · exact ih _ _ _ _ hnd.2 f hf

/-- When every file's record is already stored, a scan changes neither
the components map nor the added/updated counters. -/
theorem scanGo_stable (files : List FileInput) :
    ∀ (m : Manifest) (s a u : Nat),
      (∀ f ∈ files,
        objGet m.components (analyzeComponent f).1 =
          some (analyzeComponent f).2) →
      (scanGo m files s a u).1.components = m.components ∧
      (scanGo m files s a u).2.2.1 = a ∧ (scanGo m files s a u).2.2.2 = u := by
  induction files with
  | nil => intro m s a u _; exact ⟨rfl, rfl, rfl⟩
  | cons f rest ih =>
    intro m s a u h
    have hf := h f (List.mem_cons_self f rest)
    rw [scanGo]
    simp only [hf, if_pos]
    exact ih _ _ _ _ fun g hg => h g (List.mem_cons_of_mem f hg)

/-- Counterexample to claim C2 as stated: on a tree where two files
derive the same component name, the second scan (started from the
manifest persisted by the first) reports two updates, not zero — each
file keeps overwriting the other's record. -/
theorem scan_rescan_counterexample :
    (scanComponents (some (scanComponents none c2CollidingTree "t1").1)
        c2CollidingTree "t2").2.2.1 = 0 ∧
    (scanComponents (some (scanComponents none c2CollidingTree "t1").1)
        c2CollidingTree "t2").2.2.2 = 2 := by
  constructor
  · decide
  · decide

/-- Claim C2 as amended: when no two files of the tree derive the same
component name, a second scan over the unchanged tree, started from the
manifest persisted by the first scan, yields `added = 0` and
`updated = 0`. -/
theorem scan_rescan_idempotent (disk : Option Manifest)
    (files : List FileInput) (t1 t2 : String)
    (hnd : (files.map fun f => (analyzeComponent f).1).Nodup) :
    (scanComponents (some (scanComponents disk files t1).1) files t2).2.2.1 = 0 ∧
    (scanComponents (some (scanComponents disk files t1).1) files t2).2.2.2 = 0 := by
  have hlookup :
      ∀ f ∈ files,
        objGet (loadManifest (some (scanComponents disk files t1).1) t2).components
            (analyzeComponent f).1 =
          some (analyzeComponent f).2 := by
    intro f hf
    exact scanGo_lookup files (loadManifest disk t1) 0 0 0 hnd f hf
  have := scanGo_stable files
    (loadManifest (some (scanComponents disk files t1).1) t2) 0 0 0 hlookup
  exact ⟨this.2.1, this.2.2⟩

/-- Witness for the amended C2 at a concrete one-file tree. -/
theorem scan_rescan_idempotent_witness :
    (scanComponents (some (scanComponents none c2SimpleTree "t1").1)
        c2SimpleTree "t2").2.2.1 = 0 ∧
    (scanComponents (some (scanComponents none c2SimpleTree "t1").1)
        c2SimpleTree "t2").2.2.2 = 0 :=
  scan_rescan_idempotent none c2SimpleTree "t1" "t2" (by decide)

/-! ## Claims C5 and C6: token-usage lemmas -/

/-- Closed form of the counter state after the file loop: every token's
counter has grown by the total occurrence count over all files. -/
theorem tokenUsageGo_fst (files : List (String × String)) :
    ∀ tokens : List (String × TokenData),
      (tokenUsageGo tokens files).1 =
        tokens.map fun p =>
          (p.1, ⟨p.2.value, p.2.usageCount + totalOcc files p.1,
                 p.2.category⟩) := by
  induction files with
  | nil =>
    intro tokens
    exact (List.map_id tokens).symm
  | cons f rest ih =>
    intro tokens
    show (tokenUsageGo (bumpCounts f.2 tokens) rest).1 = _
    rw [ih, bumpCounts, List.map_map]
    refine List.map_congr_left fun p _ => ?_
    simp [Function.comp, totalOcc, Nat.add_assoc]

/-- The file loop preserves the token names. -/
theorem tokenUsageGo_names (files : List (String × String))
    (tokens : List (String × TokenData)) :
    (tokenUsageGo tokens files).1.map Prod.fst = tokens.map Prod.fst := by
  rw [tokenUsageGo_fst, List.map_map]
  rfl

/-- The unknown-token pass depends on the token map only through its
keys. -/
theorem unknownTokenViols_congr (t t' : List (String × TokenData))
    (file content : String) (h : t.map Prod.fst = t'.map Prod.fst) :
    unknownTokenViols t file content = unknownTokenViols t' file content := by
  unfold unknownTokenViols
  rw [h]

/-- Every violation found while checking one of the scanned files is in
the loop's accumulated violation list. -/
theorem tokenUsageGo_viols_mem (files : List (String × String)) :
    ∀ (tokens : List (String × TokenData)) (f c : String) (v : TokenViolation),
      (f, c) ∈ files → v ∈ unknownTokenViols tokens f c →
      v ∈ (tokenUsageGo tokens files).2 := by
  induction files with
  | nil => intro _ _ _ _ h; cases h
  | cons g rest ih =>
    intro tokens f c v hm hv
    show v ∈ unknownTokenViols tokens g.1 g.2 ++
      (tokenUsageGo (bumpCounts g.2 tokens) rest).2
    rcases List.mem_cons.mp hm with heq | hm
    · subst heq
      exact List.mem_append_left _ hv
    · have hnames : (bumpCounts g.2 tokens).map Prod.fst =
          tokens.map Prod.fst := by
        rw [bumpCounts, List.map_map]
        rfl
      refine List.mem_append_right _ (ih (bumpCounts g.2 tokens) f c v hm ?_)
      rw [unknownTokenViols_congr (bumpCounts g.2 tokens) tokens f c hnames]
      exact hv

/-- Violations accumulated by the file loop carry no details list. -/
theorem tokenUsageGo_viols_details (files : List (String × String)) :
    ∀ (tokens : List (String × TokenData)) (v : TokenViolation),
      v ∈ (tokenUsageGo tokens files).2 → v.details = [] := by
  induction files with
  | nil => intro _ _ h; cases h
  | cons g rest ih =>
    intro tokens v hv
    rcases List.mem_append.mp hv with h | h
    · have h' : v ∈ unknownTokenViols tokens g.1 g.2 := h
      unfold unknownTokenViols at h'
      rw [List.mem_filterMap] at h'
      obtain ⟨nm, _, hnm⟩ := h'
      split at hnm
      · exact absurd hnm (by simp)
      · simp only [Option.some.injEq] at hnm
        rw [← hnm]
    · exact ih _ v h

/-! ## Claim C6 -/

/-- Claim C6: every scanned file containing a `var(--name` reference to
a token name outside the extracted set yields an `unknown-token` error
violation naming that token and that file. -/
theorem unknown_token_reported (tokens : List (String × TokenData))
    (files : List (String × String)) (f c nm : String)
    (hfc : (f, c) ∈ files) (hnm : nm ∈ scanVarUsages c.toList)
    (hun : nm ∉ tokens.map Prod.fst) :
    ∃ v ∈ (validateTokenUsage tokens files).2,
      v.vtype = "unknown-token" ∧ v.severity = "error" ∧ v.token = nm ∧
        v.file = f := by
  refine ⟨⟨"unknown-token", "Unknown token " ++ nm ++ " used", "error", f,
    nm, []⟩, ?_, rfl, rfl, rfl, rfl⟩
  have hv : (⟨"unknown-token", "Unknown token " ++ nm ++ " used", "error", f,
      nm, []⟩ : TokenViolation) ∈ unknownTokenViols tokens f c := by
    rw [unknownTokenViols, List.mem_filterMap]
    exact ⟨nm, hnm, by simp [hun]⟩
  exact List.mem_append_left _ (tokenUsageGo_viols_mem files tokens f c _ hfc hv)

/-- Witness for C6: a file referencing `var(--totally-unknown)` against
a token set holding only `--x`. -/
theorem unknown_token_reported_witness :
    ∃ v ∈ (validateTokenUsage c6Tokens c6Files).2,
      v.vtype = "unknown-token" ∧ v.severity = "error" ∧
        v.token = "--totally-unknown" ∧ v.file = "components/app.css" :=
  unknown_token_reported c6Tokens c6Files "components/app.css"
    "color: var(--totally-unknown);" "--totally-unknown" (by decide)
    (by decide) (by decide)

/-! ## Claim C5 -/

/-- Counterexample to claim C5 as stated: with tokens `--x` declared and
a file referencing only `var(--x-y)`, the counter of `--x` ends at one
although there are zero `var(--name)` references to exactly `--x` — the
source regex `var\(--x` has no closing delimiter, so the reference to
the longer token name also matches. -/
theorem token_usage_prefix_counterexample :
    objGet (validateTokenUsage c5Tokens c5Files).1 "--x" =
      some ⟨"white", 1, "color"⟩ ∧
    exactRefCount c5Files "--x" = 0 := by
  constructor
  · decide
  · decide

/-- Claim C5 as amended: a token's final counter equals the number of
occurrences of the substring `var(` followed by the token name across
the scanned files (so a reference to a longer token name extending it is
also counted); a token whose counter is zero is listed in the
unused-tokens warning, and a token with a nonzero counter never appears
in any violation's details. -/
theorem validateTokenUsage_counts (tokens : List (String × TokenData))
    (files : List (String × String)) (n : String) (d : TokenData)
    (hnd : (tokens.map Prod.fst).Nodup) (hmem : (n, d) ∈ tokens)
    (hz : d.usageCount = 0) :
    ((n, (⟨d.value, totalOcc files n, d.category⟩ : TokenData)) ∈
        (validateTokenUsage tokens files).1) ∧
    (totalOcc files n = 0 →
      ∃ v ∈ (validateTokenUsage tokens files).2,
        v.vtype = "unused-tokens" ∧ n ∈ v.details) ∧
    (totalOcc files n ≠ 0 →
      ∀ v ∈ (validateTokenUsage tokens files).2, n ∉ v.details) := by
  have hfst : (validateTokenUsage tokens files).1 =
      tokens.map fun p =>
        (p.1, (⟨p.2.value, p.2.usageCount + totalOcc files p.1,
               p.2.category⟩ : TokenData)) :=
    tokenUsageGo_fst files tokens
  have hmem1 : ((n, (⟨d.value, totalOcc files n, d.category⟩ : TokenData)) ∈
      (validateTokenUsage tokens files).1) := by
    rw [hfst]
    have := List.mem_map_of_mem
      (fun p : String × TokenData =>
        (p.1, (⟨p.2.value, p.2.usageCount + totalOcc files p.1,
               p.2.category⟩ : TokenData))) hmem
    simp only [hz, Nat.zero_add] at this
    exact this
  refine ⟨hmem1, ?_, ?_⟩
  · intro h0
    have hzmem : (n, (⟨d.value, totalOcc files n, d.category⟩ : TokenData)) ∈
        (tokenUsageGo tokens files).1.filter
          fun p => decide (p.2.usageCount = 0) := by
      rw [List.mem_filter]
      exact ⟨hmem1, by simp [h0]⟩
    have hne : ((tokenUsageGo tokens files).1.filter
        fun p => decide (p.2.usageCount = 0)) ≠ [] :=
      List.ne_nil_of_mem hzmem
    have hpos : 0 < ((tokenUsageGo tokens files).1.filter
        fun p => decide (p.2.usageCount = 0)).length :=
      List.length_pos.mpr hne
    refine ⟨⟨"unused-tokens",
      toString ((tokenUsageGo tokens files).1.filter
        fun p => decide (p.2.usageCount = 0)).length ++
        " unused design tokens", "warning", "", "",
      ((tokenUsageGo tokens files).1.filter
        fun p => decide (p.2.usageCount = 0)).map Prod.fst⟩, ?_, rfl, ?_⟩
    · show _ ∈ (tokenUsageGo tokens files).2 ++ _
      refine List.mem_append_right _ ?_
      rw [if_pos hpos]
      exact List.mem_singleton.mpr rfl
    · exact List.mem_map_of_mem Prod.fst hzmem
  · intro hnz v hv hdet
    rcases List.mem_append.mp hv with h | h
    · rw [tokenUsageGo_viols_details files tokens v h] at hdet
      cases hdet
    · split at h
      · rw [List.mem_singleton] at h
        subst h
        simp only [List.mem_map] at hdet
        obtain ⟨q, hq, hq1⟩ := hdet
        rw [List.mem_filter] at hq
        obtain ⟨hq2, hq3⟩ := hq
        rw [tokenUsageGo_fst files tokens] at hq2
        rw [List.mem_map] at hq2
        obtain ⟨p, hp, hpq⟩ := hq2
        have hp1 : p.1 = n := by rw [← hq1, ← hpq]
        have hpd : p.2 = d := by
          refine nodup_keys_eq hnd ?_ hmem
          rw [← hp1]
          exact hp
        rw [← hpq] at hq3
        simp only [hp1, hpd, decide_eq_true_eq] at hq3
        rw [hz, Nat.zero_add] at hq3
        exact hnz hq3
      · cases h

/-- Witness for the amended C5: `--card-bg` is referenced once and never
reported unused; `--gap` has count zero and appears in the unused
warning. -/
theorem validateTokenUsage_counts_witness :
    ("--card-bg", (⟨"white", totalOcc c5wFiles "--card-bg", "color"⟩ :
        TokenData)) ∈ (validateTokenUsage c5wTokens c5wFiles).1 ∧
    (∃ v ∈ (validateTokenUsage c5wTokens c5wFiles).2,
      v.vtype = "unused-tokens" ∧ "--gap" ∈ v.details) ∧
    (∀ v ∈ (validateTokenUsage c5wTokens c5wFiles).2,
      "--card-bg" ∉ v.details) :=
  ⟨(validateTokenUsage_counts c5wTokens c5wFiles "--card-bg"
      ⟨"white", 0, "color"⟩ (by decide) (by decide) rfl).1,
   (validateTokenUsage_counts c5wTokens c5wFiles "--gap"
      ⟨"4px", 0, "spacing"⟩ (by decide) (by decide) rfl).2.1 (by decide),
   (validateTokenUsage_counts c5wTokens c5wFiles "--card-bg"
      ⟨"white", 0, "color"⟩ (by decide) (by decide) rfl).2.2 (by decide)⟩

/-! ## Claim C7 -/

/-- A record passes all three checks exactly when its issue list is
empty. -/
theorem componentIssues_eq_nil (name : String) (r : ComponentRecord)
    (fsPaths : List String) :
    componentIssues name r fsPaths = [] ↔ recordOk name r fsPaths = true := by
  unfold componentIssues recordOk
  split_ifs with h1 h2 h3 <;> simp_all

/-- The valid counter counts exactly the records passing all three
checks. -/
theorem validateRegistry_count (fsPaths : List String) :
    ∀ comps : List (String × ComponentRecord),
      (validateRegistry comps fsPaths).1 =
        (comps.filter fun p => recordOk p.1 p.2 fsPaths).length := by
  intro comps
  induction comps with
  | nil => rfl
  | cons p t ih =>
    rcases p with ⟨name, r⟩
    rw [validateRegistry]
    by_cases h : componentIssues name r fsPaths = []
    · have hok : recordOk name r fsPaths = true :=
        (componentIssues_eq_nil name r fsPaths).mp h
      rw [List.filter_cons]
      simp [h, hok, ih]
    · have hok : recordOk name r fsPaths = false := by
        cases hrec : recordOk name r fsPaths
        · rfl
        · exact absurd ((componentIssues_eq_nil name r fsPaths).mpr hrec) h
      have hlen : 0 < (componentIssues name r fsPaths).length :=
        List.length_pos.mpr h
      rw [List.filter_cons]
      simp [hlen, hok, ih]

/-- A record whose file is missing gets a `File not found` issue entry. -/
theorem validateRegistry_missing_file (fsPaths : List String) :
    ∀ (comps : List (String × ComponentRecord)) (name : String)
      (r : ComponentRecord), (name, r) ∈ comps → r.path ∉ fsPaths →
      ∃ e ∈ (validateRegistry comps fsPaths).2,
        e.component = name ∧ ("File not found: " ++ r.path) ∈ e.issues := by
  intro comps
  induction comps with
  | nil => intro name r hm _; cases hm
  | cons p t ih =>
    intro name r hm hnp
    rcases List.mem_cons.mp hm with heq | hm
    · have hp1 : p.1 = name := by rw [← heq]
      have hp2 : p.2 = r := by rw [← heq]
      have hmsg : ("File not found: " ++ r.path) ∈
          componentIssues p.1 p.2 fsPaths := by
        rw [hp2]
        unfold componentIssues
        rw [if_neg (by simpa using hnp)]
        exact List.mem_append_left _
          (List.mem_append_left _ (List.mem_singleton.mpr rfl))
      have hlen : 0 < (componentIssues p.1 p.2 fsPaths).length :=
        List.length_pos.mpr (List.ne_nil_of_mem hmsg)
      rcases p with ⟨nm, rr⟩
      rw [validateRegistry, if_pos hlen]
      exact ⟨⟨nm, componentIssues nm rr fsPaths⟩, List.mem_cons_self _ _,
        hp1, hmsg⟩
    · obtain ⟨e, he, hc⟩ := ih name r hm hnp
      rcases p with ⟨nm, rr⟩
      rw [validateRegistry]
      split
      · exact ⟨e, List.mem_cons_of_mem _ he, hc⟩
      · exact ⟨e, he, hc⟩

/-- Deleting a path only affects the validity of records recorded at
that path. -/
theorem recordOk_delete_other (nm : String) (rr : ComponentRecord)
    (fsPaths : List String) (x : String) (hne : rr.path ≠ x) :
    recordOk nm rr (fsPaths.filter fun q => decide (q ≠ x)) =
      recordOk nm rr fsPaths := by
  unfold recordOk
  have : (rr.path ∈ fsPaths.filter fun q => decide (q ≠ x)) ↔
      rr.path ∈ fsPaths := by
    rw [List.mem_filter]
    simp [hne]
  simp [this, hne]

/-- A record loses its validity once its own path is deleted. -/
theorem recordOk_delete_self (nm : String) (rr : ComponentRecord)
    (fsPaths : List String) :
    recordOk nm rr (fsPaths.filter fun q => decide (q ≠ rr.path)) = false := by
  unfold recordOk
  have : rr.path ∉ fsPaths.filter fun q => decide (q ≠ rr.path) := by
    intro hmem
    rw [List.mem_filter] at hmem
    simpa using hmem.2
  simp [this]

/-- Deleting the path of one valid record, when no other record shares
that path, lowers the filtered valid count by exactly one. -/
theorem filter_count_decrement (fsPaths : List String) :
    ∀ (comps : List (String × ComponentRecord)) (name : String)
      (r : ComponentRecord), (comps.map Prod.fst).Nodup →
      (name, r) ∈ comps → recordOk name r fsPaths = true →
      (∀ p ∈ comps, p.1 ≠ name → p.2.path ≠ r.path) →
      (comps.filter fun p =>
        recordOk p.1 p.2 (fsPaths.filter fun q => decide (q ≠ r.path))).length
        + 1 =
      (comps.filter fun p => recordOk p.1 p.2 fsPaths).length := by
  intro comps
  induction comps with
  | nil => intro name r _ hm; cases hm
  | cons p t ih =>
    intro name r hnd hm hok hpaths
    rw [List.map_cons, List.nodup_cons] at hnd
    rcases List.mem_cons.mp hm with heq | hm
    · have hp1n : p.1 = name := by rw [← heq]
      have hsame : ∀ q ∈ t,
          recordOk q.1 q.2 (fsPaths.filter fun s => decide (s ≠ r.path)) =
            recordOk q.1 q.2 fsPaths := by
        intro q hq
        refine recordOk_delete_other q.1 q.2 fsPaths r.path ?_
        refine hpaths q (List.mem_cons_of_mem p hq) ?_
        intro hq1
        apply hnd.1
        rw [hp1n, ← hq1]
        exact List.mem_map_of_mem Prod.fst hq
      have hfeq : (t.filter fun q =>
          recordOk q.1 q.2 (fsPaths.filter fun s => decide (s ≠ r.path))) =
          t.filter fun q => recordOk q.1 q.2 fsPaths :=
        List.filter_congr hsame
      rw [List.filter_cons, List.filter_cons]
      have hps : p.2.path = r.path := by rw [← heq]
      have hdel : recordOk p.1 p.2
          (fsPaths.filter fun q => decide (q ≠ r.path)) = false := by
        rw [← hps]
        exact recordOk_delete_self p.1 p.2 fsPaths
      have hvalid : recordOk p.1 p.2 fsPaths = true := by
        rw [← heq]
        exact hok
      rw [hdel, hvalid, hfeq]
      simp
    · have hp1 : p.1 ≠ name := by
        intro hq1
        apply hnd.1
        rw [hq1]
        exact List.mem_map_of_mem Prod.fst hm
      have hhead : recordOk p.1 p.2
          (fsPaths.filter fun q => decide (q ≠ r.path)) =
          recordOk p.1 p.2 fsPaths :=
        recordOk_delete_other p.1 p.2 fsPaths r.path
          (hpaths p (List.mem_cons_self p t) hp1)
      have := ih name r hnd.2 hm hok
        fun q hq => hpaths q (List.mem_cons_of_mem p hq)
      rw [List.filter_cons, List.filter_cons, hhead]
      cases hrec : recordOk p.1 p.2 fsPaths
      · rw [if_neg (by simp [hrec]), if_neg (by simp [hrec])]
        exact this
      · rw [if_pos (by simp [hrec]), if_pos (by simp [hrec])]
        simp only [List.length_cons]
        omega

/-- Claim C7: a manifest record whose recorded path is missing from the
disk is reported with a `File not found` issue and never counted valid
(the valid counter counts exactly the records whose file exists and
which pass the hyphen and layer checks); consequently, deleting the file
of one previously-valid record — no other record sharing that path —
decrements the valid count by exactly one. -/
theorem validateRegistry_spec (comps : List (String × ComponentRecord))
    (fsPaths : List String) (name : String) (r : ComponentRecord)
    (hnd : (comps.map Prod.fst).Nodup) (hmem : (name, r) ∈ comps) :
    (r.path ∉ fsPaths →
      ∃ e ∈ (validateRegistry comps fsPaths).2,
        e.component = name ∧ ("File not found: " ++ r.path) ∈ e.issues) ∧
    (validateRegistry comps fsPaths).1 =
      (comps.filter fun p => recordOk p.1 p.2 fsPaths).length ∧
    (recordOk name r fsPaths = true →
      (∀ p ∈ comps, p.1 ≠ name → p.2.path ≠ r.path) →
      (validateRegistry comps
        (fsPaths.filter fun q => decide (q ≠ r.path))).1 + 1 =
        (validateRegistry comps fsPaths).1) := by
  refine ⟨fun hnp => validateRegistry_missing_file fsPaths comps name r
    hmem hnp, validateRegistry_count fsPaths comps, ?_⟩
  intro hok hpaths
  rw [validateRegistry_count fsPaths comps,
    validateRegistry_count (fsPaths.filter fun q => decide (q ≠ r.path)) comps]
  exact filter_count_decrement fsPaths comps name r hnd hmem hok hpaths

/-- Witness for C7: `my-list`'s file is missing and reported; deleting
`my-card`'s file drops the valid count from one to zero. -/
theorem validateRegistry_spec_witness :
    (∃ e ∈ (validateRegistry c7Comps c7Fs).2,
      e.component = "my-list" ∧
        ("File not found: " ++ c7RecB.path) ∈ e.issues) ∧
    (validateRegistry c7Comps
        (c7Fs.filter fun q => decide (q ≠ c7RecA.path))).1 + 1 =
      (validateRegistry c7Comps c7Fs).1 :=
  ⟨(validateRegistry_spec c7Comps c7Fs "my-list" c7RecB (by decide)
      (by decide)).1 (by decide),
   (validateRegistry_spec c7Comps c7Fs "my-card" c7RecA (by decide)
      (by decide)).2.2 (by decide) (by decide)⟩

end UICanvas
